import Mathlib

/-!
Shallow embedding of the `rce/ergodox` repository: the firmware's keycode
encoding, keymap layer resolution, per-key debouncer and HID report builder
(`src/firmware/src/keymap.rs`, `debounce.rs`, `hid.rs`), and the host tool's
Intel HEX parser, image flattener and HalfKay page-buffer builder
(`src/ergodox-cli/src/hex.rs`, `halfkay.rs`).

Machine integers (`u8`, `u16`, `u32`, `usize`) are modelled as `Nat`, with an
explicit `% 256` wherever the source performs wrapping 8-bit arithmetic
(`wrapping_add`, `u8` subtraction, byte masking).
-/

namespace Ergodox

/-! ### Keycode encoding (`firmware/src/keymap.rs`, `Keycode` impl)

A keycode is its `u8` discriminant: `0x00` transparent, `0x01` error
rollover, `0x04..=0x64` ordinary keys, `0xE0..=0xE7` modifiers,
`0xF0..=0xFF` momentary layer holds. -/

/-- `Keycode::is_modifier`: the value lies in `0xE0..=0xE7`. -/
def is_modifier (kc : Nat) : Bool := decide (0xE0 ≤ kc ∧ kc ≤ 0xE7)

/-- `Keycode::modifier_bit`: `1 << (kc - 0xE0)` for modifiers, else 0. -/
def modifier_bit (kc : Nat) : Nat :=
  if is_modifier kc then 1 <<< (kc - 0xE0) else 0

/-- `Keycode::is_layer`: the value lies in `0xF0..=0xFF`. -/
def is_layer (kc : Nat) : Bool := decide (0xF0 ≤ kc ∧ kc ≤ 0xFF)

/-- `Keycode::layer_number`: the wrapping `u8` subtraction `kc - 0xF0`. -/
def layer_number (kc : Nat) : Nat := (kc + 256 - 0xF0) % 256

/-- `Keycode::is_transparent`: the value is `0x00`. -/
def is_transparent (kc : Nat) : Bool := kc == 0x00

/-! ### Matrix dimensions (`firmware/src/matrix.rs`) -/

def ROWS : Nat := 6
def COLS_PER_HALF : Nat := 7
def COLS : Nat := COLS_PER_HALF * 2

/-! ### The keymap (`firmware/src/keymap.rs`, `LAYERS`)

Each cell is the `u8` discriminant of the `Keycode` written in the source
table. `0x00` is `Trans` (`___` in the source). -/

def NUM_LAYERS : Nat := 2

/-- The two-layer 6×14 keymap from `firmware/src/keymap.rs`. -/
def LAYERS : List (List (List Nat)) := [
  -- Layer 0: QWERTY
  [
    -- Row 0: =, 1, 2, 3, 4, 5, Esc | -, 6, 7, 8, 9, 0, ___
    [0x2E, 0x1E, 0x1F, 0x20, 0x21, 0x22, 0x29,
     0x2D, 0x23, 0x24, 0x25, 0x26, 0x27, 0x00],
    -- Row 1: Tab, Q, W, E, R, T, [ | ], Y, U, I, O, P, Backslash
    [0x2B, 0x14, 0x1A, 0x08, 0x15, 0x17, 0x2F,
     0x30, 0x1C, 0x18, 0x0C, 0x12, 0x13, 0x31],
    -- Row 2: LCtrl, A, S, D, F, G, ___ | ___, H, J, K, L, Semicolon, Quote
    [0xE0, 0x04, 0x16, 0x07, 0x09, 0x0A, 0x00,
     0x00, 0x0B, 0x0D, 0x0E, 0x0F, 0x33, 0x34],
    -- Row 3: NonUsBackslash, Z, X, C, V, B, Layer1 | Layer1, N, M, Comma, Dot, Slash, RShift
    [0x64, 0x1D, 0x1B, 0x06, 0x19, 0x05, 0xF1,
     0xF1, 0x11, 0x10, 0x36, 0x37, 0x38, 0xE5],
    -- Row 4: Grave, LAlt, LGui, ___ ... ___, RAlt, ___ ...
    [0x35, 0xE2, 0xE3, 0x00, 0x00, 0x00, 0x00,
     0x00, 0x00, 0x00, 0x00, 0xE6, 0x00, 0x00],
    -- Row 5: ___, ___, Enter, Space, ... | ..., RShift, Backspace, ___, ___
    [0x00, 0x00, 0x28, 0x2C, 0x00, 0x00, 0x00,
     0x00, 0x00, 0x00, 0xE5, 0x2A, 0x00, 0x00]
  ],
  -- Layer 1: Function/Symbol
  [
    -- Row 0: ___, F1..F5, ___ | ___, F6..F10, ___
    [0x00, 0x3A, 0x3B, 0x3C, 0x3D, 0x3E, 0x00,
     0x00, 0x3F, 0x40, 0x41, 0x42, 0x43, 0x00],
    -- Row 1: ___ ×6, F11 | F12, ___ ×6
    [0x00, 0x00, 0x00, 0x00, 0x00, 0x00, 0x44,
     0x45, 0x00, 0x00, 0x00, 0x00, 0x00, 0x00],
    -- Row 2: ___ ×7 | ___, Left, Down, Up, Right, ___, ___
    [0x00, 0x00, 0x00, 0x00, 0x00, 0x00, 0x00,
     0x00, 0x50, 0x51, 0x52, 0x4F, 0x00, 0x00],
    -- Row 3: all transparent
    [0x00, 0x00, 0x00, 0x00, 0x00, 0x00, 0x00,
     0x00, 0x00, 0x00, 0x00, 0x00, 0x00, 0x00],
    -- Row 4: all transparent
    [0x00, 0x00, 0x00, 0x00, 0x00, 0x00, 0x00,
     0x00, 0x00, 0x00, 0x00, 0x00, 0x00, 0x00],
    -- Row 5: all transparent
    [0x00, 0x00, 0x00, 0x00, 0x00, 0x00, 0x00,
     0x00, 0x00, 0x00, 0x00, 0x00, 0x00, 0x00]
  ]]

/-- The source expression `LAYERS[l][row][col]` (always used in bounds). -/
def keyAt (l r c : Nat) : Nat := ((LAYERS.getD l []).getD r []).getD c 0

/-- The row-major traversal order of the nested
`for row in 0..ROWS { for col in 0..COLS { ... } }` loops. -/
def cellIndices : List (Nat × Nat) :=
  (List.range ROWS).flatMap (fun r => (List.range COLS).map (fun c => (r, c)))

/-- The body of `resolve_layer`'s loop for one cell: if the cell is
pressed and its layer-0 keycode is a layer hold whose layer number beats
the running maximum and is in range, take it. -/
def resolveStep (keys : Nat → Nat → Bool) (active_layer : Nat) (rc : Nat × Nat) : Nat :=
  if keys rc.1 rc.2 then
    let kc := keyAt 0 rc.1 rc.2
    if is_layer kc then
      let layer := layer_number kc
      if layer > active_layer ∧ layer < NUM_LAYERS then layer else active_layer
    else active_layer
  else active_layer

/-- `resolve_layer` from `firmware/src/keymap.rs`: scan all pressed cells,
keep the highest in-range layer number of any layer-hold key looked up on
layer 0. A snapshot is the debounced matrix, `true` = pressed. -/
def resolve_layer (keys : Nat → Nat → Bool) : Nat :=
  cellIndices.foldl (resolveStep keys) 0

/-- The spec's description of `resolve_layer` (§4.4): the highest layer
number encoded by a layer-hold keycode, looked up on layer 0, among the
pressed cells; 0 when no layer-hold key is pressed. -/
def resolveLayerSpec (keys : Nat → Nat → Bool) : Nat :=
  ((cellIndices.filter
      (fun rc => keys rc.1 rc.2 && is_layer (keyAt 0 rc.1 rc.2))).map
    (fun rc => layer_number (keyAt 0 rc.1 rc.2))).foldl max 0

/-- `lookup` from `firmware/src/keymap.rs`: start at `layer` and step one
layer down while the cell is transparent, stopping at layer 0. -/
def lookup : Nat → Nat → Nat → Nat
  | 0, r, c => keyAt 0 r c
  | l + 1, r, c =>
    let kc := keyAt (l + 1) r c
    if is_transparent kc then lookup l r c else kc

/-! ### Debouncer (`firmware/src/debounce.rs`) -/

def DEBOUNCE_THRESHOLD : Nat := 5

/-- The per-cell body of `Debouncer::update`. `raw` is active-low
(`true` = not pressed); the counter is a `u8`, so the increment wraps at
256. Returns the new `(state, counter)` pair for the cell. -/
def debounceCell (state : Bool) (counter : Nat) (raw : Bool) : Bool × Nat :=
  let pressed := !raw
  if pressed == state then (state, 0)
  else
    let c := (counter + 1) % 256
    if DEBOUNCE_THRESHOLD ≤ c then (pressed, 0) else (state, c)

/-- Debouncer state: per-cell committed state and `u8` counter. -/
structure Debouncer where
  state : Fin 6 → Fin 14 → Bool
  counters : Fin 6 → Fin 14 → Nat

/-- `Debouncer::new`. -/
def Debouncer.new : Debouncer := ⟨fun _ _ => false, fun _ _ => 0⟩

/-- `Debouncer::update`: the nested loops update every cell independently
from its own raw reading. -/
def Debouncer.update (d : Debouncer) (raw : Fin 6 → Fin 14 → Bool) : Debouncer :=
  ⟨fun r c => (debounceCell (d.state r c) (d.counters r c) (raw r c)).1,
   fun r c => (debounceCell (d.state r c) (d.counters r c) (raw r c)).2⟩

/-- Feeding a sequence of raw snapshots through `Debouncer::update`. -/
def Debouncer.feed (d : Debouncer) (raws : List (Fin 6 → Fin 14 → Bool)) : Debouncer :=
  raws.foldl Debouncer.update d

/-! ### HID report builder (`firmware/src/hid.rs`, `build_report`) -/

/-- `KeyboardReport`: modifier bitmask, reserved byte, six keycode slots
(the `keys` list always has length 6). -/
structure KeyboardReport where
  modifiers : Nat
  reserved : Nat
  keys : List Nat
deriving DecidableEq

/-- `KeyboardReport::empty`. -/
def KeyboardReport.empty : KeyboardReport := ⟨0, 0, List.replicate 6 0⟩

/-- The body of `build_report`'s loop for one cell, threading the report and
`key_idx` through the row-major fold. -/
def reportStep (keys : Nat → Nat → Bool) (layer : Nat)
    (st : KeyboardReport × Nat) (rc : Nat × Nat) : KeyboardReport × Nat :=
  if keys rc.1 rc.2 then
    let kc := lookup layer rc.1 rc.2
    if is_transparent kc || is_layer kc || kc == 0x01 then st
    else if is_modifier kc then
      ({ st.1 with modifiers := st.1.modifiers ||| modifier_bit kc }, st.2)
    else if st.2 < 6 then
      ({ st.1 with keys := st.1.keys.set st.2 kc }, st.2 + 1)
    else st
  else st

/-- `build_report` from `firmware/src/hid.rs`. -/
def build_report (keys : Nat → Nat → Bool) (layer : Nat) : KeyboardReport :=
  (cellIndices.foldl (reportStep keys layer) (KeyboardReport.empty, 0)).1

/-- The resolved keycodes of the pressed cells of `L`, in traversal order,
with the transparent, layer and error-rollover codes skipped — the codes
`build_report`'s loop acts on. -/
def activeCodes (keys : Nat → Nat → Bool) (layer : Nat) (L : List (Nat × Nat)) :
    List Nat :=
  L.filterMap (fun rc =>
    if keys rc.1 rc.2 then
      let kc := lookup layer rc.1 rc.2
      if is_transparent kc || is_layer kc || kc == 0x01 then none
      else some kc
    else none)

/-- The active codes that are modifiers: they are ORed into the modifier
byte. -/
def modifierCodes (keys : Nat → Nat → Bool) (layer : Nat) (L : List (Nat × Nat)) :
    List Nat :=
  (activeCodes keys layer L).filter (fun kc => is_modifier kc)

/-- The active codes that are not modifiers: they fill the six slots in
order, extras dropped. -/
def regularCodes (keys : Nat → Nat → Bool) (layer : Nat) (L : List (Nat × Nat)) :
    List Nat :=
  (activeCodes keys layer L).filter (fun kc => !is_modifier kc)

/-! ### Intel HEX parser (`ergodox-cli/src/hex.rs`)

`u8::from_str_radix(_, 16)` accepts upper- and lower-case hex digits, plus
an optional leading `+` sign followed by a single digit. The source slices
the line by bytes; on the hex-digit lines the claims quantify over, bytes
and chars coincide, so the model works on the line's characters. -/

/-- The value of a single hexadecimal digit character, if any. -/
def hexDigit (c : Char) : Option Nat :=
  if '0' ≤ c ∧ c ≤ '9' then some (c.toNat - '0'.toNat)
  else if 'a' ≤ c ∧ c ≤ 'f' then some (10 + c.toNat - 'a'.toNat)
  else if 'A' ≤ c ∧ c ≤ 'F' then some (10 + c.toNat - 'A'.toNat)
  else none

/-- `u8::from_str_radix` on a two-character chunk. -/
def decodePair (c1 c2 : Char) : Option Nat :=
  if c1 = '+' then hexDigit c2
  else
    match hexDigit c1, hexDigit c2 with
    | some hi, some lo => some (16 * hi + lo)
    | _, _ => none

/-- Decode consecutive two-character chunks. -/
def decodePairs : List Char → Option (List Nat)
  | [] => some []
  | [_] => none
  | c1 :: c2 :: rest =>
    match decodePair c1 c2, decodePairs rest with
    | some b, some bs => some (b :: bs)
    | _, _ => none

/-- `decode_hex_bytes` from `ergodox-cli/src/hex.rs`: reject odd-length
input, then decode two characters per byte. -/
def decode_hex_bytes (cs : List Char) : Option (List Nat) :=
  if cs.length % 2 ≠ 0 then none else decodePairs cs

/-- `HexSegment`: a contiguous run of data at an absolute address. -/
structure HexSegment where
  address : Nat
  data : List Nat
deriving DecidableEq

/-- Outcome of `parse_hex`: the segment list, an error citing a 1-based
line number (`bail!("line {}: ...")`), or a Rust panic (an out-of-bounds
slice index). -/
inductive ParseResult (α : Type) where
  | ok : α → ParseResult α
  | fail : Nat → ParseResult α
  | panicked : ParseResult α
deriving DecidableEq

/-- Outcome of processing one line inside `parse_hex`'s loop: continue with
updated `(base_address, segments)`, stop at end-of-file, fail, or panic. -/
inductive LineStep where
  | next : Nat → List HexSegment → LineStep
  | eof : LineStep
  | fail : Nat → LineStep
  | panicked : LineStep
deriving DecidableEq

/-- The data-record arm of `parse_hex`: extend the last segment when the
new record is contiguous with its end, else push a new segment. -/
def pushData (segs : List HexSegment) (full_address : Nat) (data : List Nat) :
    List HexSegment :=
  match segs.getLast? with
  | some last =>
    if full_address = last.address + last.data.length then
      segs.dropLast ++ [⟨last.address, last.data ++ data⟩]
    else segs ++ [⟨full_address, data⟩]
  | none => segs ++ [⟨full_address, data⟩]

/-- `str::trim` on a line's characters: strip whitespace from both ends. -/
def trimChars (cs : List Char) : List Char :=
  ((cs.dropWhile Char.isWhitespace).reverse.dropWhile Char.isWhitespace).reverse

/-- One iteration of `parse_hex`'s loop on the (1-based) line `ln`.

Mirrors the source order exactly: trim; skip empty; require `:`; decode;
require at least 5 bytes; take `data = &bytes[4..4 + count]` — which
panics when `bytes.len() < 4 + count`, since the length check comes only
on the next line of the source — then check `bytes.len() == 5 + count`,
verify the wrapping-`u8` checksum, and dispatch on the record type. -/
def parseLine (ln : Nat) (line : String) (base_address : Nat)
    (segs : List HexSegment) : LineStep :=
  let t := trimChars line.data
  if t.isEmpty then .next base_address segs
  else if t.head? ≠ some ':' then .fail ln
  else
    match decode_hex_bytes (t.drop 1) with
    | none => .fail ln
    | some bytes =>
      if bytes.length < 5 then .fail ln
      else
        let byte_count := bytes.getD 0 0
        let address := 256 * bytes.getD 1 0 + bytes.getD 2 0
        let record_type := bytes.getD 3 0
        if bytes.length < 4 + byte_count then .panicked
        else
          let data := (bytes.drop 4).take byte_count
          if bytes.length ≠ 5 + byte_count then .fail ln
          else if bytes.foldl (fun acc b => (acc + b) % 256) 0 ≠ 0 then .fail ln
          else if record_type = 0x00 then
            .next base_address (pushData segs (base_address + address) data)
          else if record_type = 0x01 then .eof
          else if record_type = 0x02 then
            if byte_count ≠ 2 then .fail ln
            else .next ((256 * data.getD 0 0 + data.getD 1 0) * 16) segs
          else .fail ln

/-- The loop of `parse_hex` over the input's lines, with the running
1-based line number, base address and segment list. -/
def parseLines : Nat → Nat → List HexSegment → List String → ParseResult (List HexSegment)
  | _, _, segs, [] => .ok segs
  | ln, base_address, segs, line :: rest =>
    match parseLine ln line base_address segs with
    | .next b s => parseLines (ln + 1) b s rest
    | .eof => .ok segs
    | .fail n => .fail n
    | .panicked => .panicked

/-- `parse_hex` from `ergodox-cli/src/hex.rs`. The source iterates
`input.lines()` (a `str` standard-library call that splits the text blob
at newlines); the model takes that line list directly. -/
def parse_hex (lines : List String) : ParseResult (List HexSegment) :=
  parseLines 1 0 [] lines

/-- Processing a prefix of the input's lines: the state `parse_hex` is in
when it reaches the line after the prefix, or `none` when the prefix
itself fails, panics, or contains an end-of-file record. -/
def consumePrefix : Nat → Nat → List HexSegment → List String →
    Option (Nat × Nat × List HexSegment)
  | ln, base_address, segs, [] => some (ln, base_address, segs)
  | ln, base_address, segs, line :: rest =>
    match parseLine ln line base_address segs with
    | .next b s => consumePrefix (ln + 1) b s rest
    | _ => none

/-! ### Flatten (`ergodox-cli/src/hex.rs`, `flatten_segments`) -/

/-- The slice assignment `buf[off..off + data.len()].copy_from_slice(data)`
(always used with `off + data.len() ≤ buf.length`). -/
def copyFromSlice (buf : List Nat) (off : Nat) (data : List Nat) : List Nat :=
  buf.take off ++ data ++ buf.drop (off + data.length)

/-- `flatten_segments` from `ergodox-cli/src/hex.rs`: `0xFF`-fill the span
`[min_address, max_end)` and copy each segment in order. Addresses are
`u32` in the source; the `Nat` model coincides as long as every
`address + data.len()` stays below `2^32`. -/
def flatten_segments (segs : List HexSegment) : Option (Nat × List Nat) :=
  if segs.isEmpty then none
  else
    match (segs.map (fun s => s.address)).min?,
          (segs.map (fun s => s.address + s.data.length)).max? with
    | some min_addr, some max_addr =>
      let image := List.replicate (max_addr - min_addr) 0xFF
      some (min_addr,
        segs.foldl (fun img s => copyFromSlice img (s.address - min_addr) s.data) image)
    | _, _ => none

/-! ### HalfKay page buffer (`ergodox-cli/src/halfkay.rs`) -/

def PAGE_SIZE : Nat := 128

/-- `build_page_buffer` from `ergodox-cli/src/halfkay.rs`: a
`2 + PAGE_SIZE`-byte buffer of `0xFF`, the low and high bytes of the
target address in the first two slots, and the page data copied at
offset 2. `none` models the `assert!(data.len() <= PAGE_SIZE)` panic. -/
def build_page_buffer (address : Nat) (data : List Nat) : Option (List Nat) :=
  if data.length ≤ PAGE_SIZE then
    let buf := List.replicate (2 + PAGE_SIZE) 0xFF
    let buf := buf.set 0 (address % 256)
    let buf := buf.set 1 ((address / 256) % 256)
    some (copyFromSlice buf 2 data)
  else none

/-! ### General list helpers -/

theorem getD_replicate {α : Type} {i n : Nat} {a d : α} (h : i < n) :
    (List.replicate n a).getD i d = a := by
  simp [List.getD_eq_getElem?_getD, List.getElem?_replicate, h]

theorem getD_replicate_ge {α : Type} {i n : Nat} {a d : α} (h : n ≤ i) :
    (List.replicate n a).getD i d = d := by
  simp [List.getD_eq_getElem?_getD, List.getElem?_replicate, Nat.not_lt.mpr h]

/-! ### Theorems about the debouncer -/

theorem debounceCell_counter_lt (s : Bool) (ctr : Nat) (raw : Bool) :
    (debounceCell s ctr raw).2 < DEBOUNCE_THRESHOLD := by
  unfold debounceCell
  dsimp only
  split
  · simp [DEBOUNCE_THRESHOLD]
  · split
    · simp [DEBOUNCE_THRESHOLD]
    · next h => exact Nat.lt_of_not_le h

/-- C10: after every `Debouncer::update`, every cell's counter is strictly
below the threshold 5, and incrementing a counter below the threshold does
not wrap the 8-bit arithmetic. -/
theorem update_counter_lt_threshold (d : Debouncer) (raw : Fin 6 → Fin 14 → Bool)
    (r : Fin 6) (c : Fin 14) (n : Nat) (hn : n < DEBOUNCE_THRESHOLD) :
    (d.update raw).counters r c < DEBOUNCE_THRESHOLD ∧ (n + 1) % 256 = n + 1 := by
  refine ⟨debounceCell_counter_lt _ _ _, ?_⟩
  have : n + 1 < 256 := by
    have : DEBOUNCE_THRESHOLD = 5 := rfl
    omega
  exact Nat.mod_eq_of_lt this

/-- Witness for C10 at a concrete state, snapshot, cell and counter value. -/
theorem update_counter_lt_threshold_witness :
    (Debouncer.new.update (fun _ _ => false)).counters 0 0 < DEBOUNCE_THRESHOLD
    ∧ (3 + 1) % 256 = 3 + 1 :=
  update_counter_lt_threshold Debouncer.new (fun _ _ => false) 0 0 3 (by decide)

theorem take_replicate' {α : Type} (a : α) :
    ∀ n k, (List.replicate n a).take k = List.replicate (min k n) a := by
  intro n
  induction n with
  | zero => intro k; simp
  | succ n ih =>
    intro k
    cases k with
    | zero => simp
    | succ k => simp [List.replicate_succ, ih, Nat.succ_min_succ]

/-- The per-cell trace of feeding a raw-snapshot sequence: each cell's
final `(state, counter)` pair is the fold of `debounceCell` over that
cell's own raw readings. -/
theorem feed_cell (d : Debouncer) (raws : List (Fin 6 → Fin 14 → Bool))
    (r : Fin 6) (c : Fin 14) :
    ((d.feed raws).state r c, (d.feed raws).counters r c)
      = (raws.map (fun raw => raw r c)).foldl
          (fun p raw => debounceCell p.1 p.2 raw) (d.state r c, d.counters r c) := by
  induction raws generalizing d with
  | nil => rfl
  | cons a t ih =>
    have h := ih (d.update a)
    simp only [Debouncer.feed, List.foldl_cons, List.map_cons] at *
    exact h

theorem debounceCell_agree (s : Bool) (ctr : Nat) (raw : Bool)
    (h : (!raw) = (debounceCell s ctr raw).1) : (debounceCell s ctr raw).2 = 0 := by
  unfold debounceCell at h ⊢
  dsimp only at h ⊢
  revert h
  split
  · intro _; rfl
  · split
    · intro _; rfl
    · intro h
      next hne _ => exact absurd (by simp [h]) hne

/-- C2: starting from a cell with counter 0, five consecutive raw
snapshots whose logical (active-low-negated) sense opposes the committed
state leave the state unchanged through the first four updates, flip it
exactly on the fifth, and return the counter to 0; and after any single
update, any cell whose logical raw reading agrees with its committed
state has counter 0. -/
theorem debouncer_flip_on_threshold (d : Debouncer) (r : Fin 6) (c : Fin 14)
    (raws : List (Fin 6 → Fin 14 → Bool))
    (h0 : d.counters r c = 0)
    (hlen : raws.length = DEBOUNCE_THRESHOLD)
    (hopp : ∀ raw ∈ raws, raw r c = d.state r c) :
    (∀ k, k < DEBOUNCE_THRESHOLD →
      (d.feed (raws.take k)).state r c = d.state r c)
    ∧ (d.feed raws).state r c = !(d.state r c)
    ∧ (d.feed raws).counters r c = 0
    ∧ ∀ (e : Debouncer) (raw : Fin 6 → Fin 14 → Bool) (r' : Fin 6) (c' : Fin 14),
        (!(raw r' c')) = (e.update raw).state r' c' →
        (e.update raw).counters r' c' = 0 := by
  have hmap : raws.map (fun raw => raw r c) = List.replicate 5 (d.state r c) := by
    rw [List.eq_replicate_iff]
    refine ⟨by simpa [DEBOUNCE_THRESHOLD] using hlen, ?_⟩
    intro b hb
    obtain ⟨raw, hraw, rfl⟩ := List.mem_map.mp hb
    exact hopp raw hraw
  have run : ∀ (b : Bool) (k : Nat), k < 5 →
      (List.replicate k b).foldl (fun p raw => debounceCell p.1 p.2 raw) (b, 0) = (b, k) := by
    decide
  have run5 : ∀ b : Bool,
      (List.replicate 5 b).foldl (fun p raw => debounceCell p.1 p.2 raw) (b, 0) = (!b, 0) := by
    decide
  refine ⟨?_, ?_, ?_, ?_⟩
  · intro k hk
    have h1 := feed_cell d (raws.take k) r c
    rw [List.map_take, hmap, take_replicate', h0] at h1
    have hmin : min k 5 = k := by
      simp [DEBOUNCE_THRESHOLD] at hk
      omega
    rw [hmin, run (d.state r c) k (by simpa [DEBOUNCE_THRESHOLD] using hk)] at h1
    exact congrArg Prod.fst h1
  · have h1 := feed_cell d raws r c
    rw [hmap, h0, run5] at h1
    exact congrArg Prod.fst h1
  · have h1 := feed_cell d raws r c
    rw [hmap, h0, run5] at h1
    exact congrArg Prod.snd h1
  · intro e raw r' c' hagree
    exact debounceCell_agree _ _ _ hagree

/-- Witness for C2: the all-released debouncer fed five all-low raw
snapshots (raw low = logically pressed, opposite the released state). -/
theorem debouncer_flip_on_threshold_witness :
    (∀ k, k < DEBOUNCE_THRESHOLD →
      (Debouncer.new.feed ((List.replicate 5 (fun _ _ => false)).take k)).state 0 0
        = Debouncer.new.state 0 0)
    ∧ (Debouncer.new.feed (List.replicate 5 (fun _ _ => false))).state 0 0
        = !(Debouncer.new.state 0 0)
    ∧ (Debouncer.new.feed (List.replicate 5 (fun _ _ => false))).counters 0 0 = 0
    ∧ ∀ (e : Debouncer) (raw : Fin 6 → Fin 14 → Bool) (r' : Fin 6) (c' : Fin 14),
        (!(raw r' c')) = (e.update raw).state r' c' →
        (e.update raw).counters r' c' = 0 :=
  debouncer_flip_on_threshold Debouncer.new 0 0 (List.replicate 5 (fun _ _ => false))
    rfl (by simp [DEBOUNCE_THRESHOLD])
    (by
      intro raw hraw
      rw [List.eq_of_mem_replicate hraw]
      rfl)

/-! ### Theorems about the keymap resolver -/

theorem resolveStep_eq_max (keys : Nat → Nat → Bool) (acc : Nat) (rc : Nat × Nat)
    (h : is_layer (keyAt 0 rc.1 rc.2) = true →
      layer_number (keyAt 0 rc.1 rc.2) < NUM_LAYERS) :
    resolveStep keys acc rc =
      if keys rc.1 rc.2 && is_layer (keyAt 0 rc.1 rc.2) then
        max acc (layer_number (keyAt 0 rc.1 rc.2))
      else acc := by
  unfold resolveStep
  by_cases hk : keys rc.1 rc.2 = true
  · by_cases hl : is_layer (keyAt 0 rc.1 rc.2) = true
    · have hlt := h hl
      simp only [hk, hl, Bool.and_self, if_true]
      rcases Nat.lt_or_ge acc (layer_number (keyAt 0 rc.1 rc.2)) with hgt | hge
      · rw [if_pos ⟨hgt, hlt⟩, Nat.max_eq_right (Nat.le_of_lt hgt)]
      · rw [if_neg (by omega), Nat.max_eq_left hge]
    · simp [hk, hl]
  · simp [hk]

theorem resolve_foldl_eq (keys : Nat → Nat → Bool) :
    ∀ (L : List (Nat × Nat)) (acc : Nat),
      (∀ rc ∈ L, is_layer (keyAt 0 rc.1 rc.2) = true →
        layer_number (keyAt 0 rc.1 rc.2) < NUM_LAYERS) →
      L.foldl (resolveStep keys) acc
      = ((L.filter (fun rc => keys rc.1 rc.2 && is_layer (keyAt 0 rc.1 rc.2))).map
          (fun rc => layer_number (keyAt 0 rc.1 rc.2))).foldl max acc := by
  intro L
  induction L with
  | nil => intro acc _; rfl
  | cons a t ih =>
    intro acc hin
    have hint : ∀ rc ∈ t, is_layer (keyAt 0 rc.1 rc.2) = true →
        layer_number (keyAt 0 rc.1 rc.2) < NUM_LAYERS :=
      fun rc h => hin rc (List.mem_cons_of_mem a h)
    rw [List.foldl_cons, resolveStep_eq_max keys acc a (hin a (List.mem_cons_self a t)),
      List.filter_cons]
    by_cases hq : (keys a.1 a.2 && is_layer (keyAt 0 a.1 a.2)) = true
    · rw [if_pos hq, if_pos hq, List.map_cons, List.foldl_cons]
      exact ih _ hint
    · rw [if_neg hq, if_neg hq]
      exact ih _ hint

/-- Every layer-hold keycode appearing on layer 0 of the compiled-in
keymap encodes a layer index below `NUM_LAYERS`. -/
theorem layer_holds_in_range :
    ∀ rc ∈ cellIndices, is_layer (keyAt 0 rc.1 rc.2) = true →
      layer_number (keyAt 0 rc.1 rc.2) < NUM_LAYERS := by
  decide

/-- C5: `resolve_layer` returns exactly the highest layer number encoded
by a layer-hold keycode (looked up on layer 0) among the pressed cells,
and 0 when no pressed cell carries a layer-hold key. -/
theorem resolve_layer_highest (keys : Nat → Nat → Bool) :
    resolve_layer keys = resolveLayerSpec keys
    ∧ ((∀ rc ∈ cellIndices,
          ¬(keys rc.1 rc.2 = true ∧ is_layer (keyAt 0 rc.1 rc.2) = true)) →
        resolve_layer keys = 0) := by
  have heq : resolve_layer keys = resolveLayerSpec keys :=
    resolve_foldl_eq keys cellIndices 0 layer_holds_in_range
  refine ⟨heq, fun hnone => ?_⟩
  rw [heq]
  unfold resolveLayerSpec
  have hfil : cellIndices.filter
      (fun rc => keys rc.1 rc.2 && is_layer (keyAt 0 rc.1 rc.2)) = [] := by
    rw [List.filter_eq_nil_iff]
    intro rc hrc
    have := hnone rc hrc
    simp only [Bool.and_eq_true]
    exact fun h => this h
  rw [hfil]
  rfl

/-- Witness for C5 at the all-released snapshot. -/
theorem resolve_layer_highest_witness :
    resolve_layer (fun _ _ => false) = resolveLayerSpec (fun _ _ => false)
    ∧ resolve_layer (fun _ _ => false) = 0 :=
  ⟨(resolve_layer_highest (fun _ _ => false)).1,
   (resolve_layer_highest (fun _ _ => false)).2 (by decide)⟩

/-- C9 (implicit): `resolve_layer` always returns a value strictly below
`NUM_LAYERS`, the length of the `LAYERS` table, so indexing the table with
its result is always in bounds. -/
theorem resolve_layer_lt_num_layers (keys : Nat → Nat → Bool) :
    resolve_layer keys < NUM_LAYERS ∧ NUM_LAYERS = LAYERS.length := by
  refine ⟨?_, rfl⟩
  have gen : ∀ (L : List (Nat × Nat)) (acc : Nat), acc < NUM_LAYERS →
      L.foldl (resolveStep keys) acc < NUM_LAYERS := by
    intro L
    induction L with
    | nil => intro acc h; exact h
    | cons a t ih =>
      intro acc h
      rw [List.foldl_cons]
      apply ih
      unfold resolveStep
      dsimp only
      split
      · split
        · split
          · next hcond => exact hcond.2
          · exact h
        · exact h
      · exact h
  exact gen cellIndices 0 (by decide)

/-- A general characterization of the transparent fall-through, by
induction on the starting layer. -/
theorem lookup_trans_characterize (r c : Nat) : ∀ L : Nat,
    (is_transparent (lookup L r c) = true ↔
      ∀ l, l ≤ L → is_transparent (keyAt l r c) = true)
    ∧ ((∀ l, l ≤ L → is_transparent (keyAt l r c) = true) →
        lookup L r c = keyAt 0 r c) := by
  intro L
  induction L with
  | zero =>
    constructor
    · constructor
      · intro h l hl
        rw [Nat.le_zero.mp hl]
        exact h
      · intro h
        exact h 0 (Nat.le_refl 0)
    · intro _
      rfl
  | succ L ih =>
    have hunf : lookup (L + 1) r c
        = if is_transparent (keyAt (L + 1) r c) = true then lookup L r c
          else keyAt (L + 1) r c := rfl
    by_cases h : is_transparent (keyAt (L + 1) r c) = true
    · have hstep : lookup (L + 1) r c = lookup L r c := by
        rw [hunf, if_pos h]
      constructor
      · rw [hstep, ih.1]
        constructor
        · intro hall l hl
          rcases Nat.lt_or_ge l (L + 1) with hlt | hge
          · exact hall l (Nat.lt_succ_iff.mp hlt)
          · rw [Nat.le_antisymm hl hge]
            exact h
        · intro hall l hl
          exact hall l (Nat.le_succ_of_le hl)
      · intro hall
        rw [hstep]
        exact ih.2 (fun l hl => hall l (Nat.le_succ_of_le hl))
    · have hstep : lookup (L + 1) r c = keyAt (L + 1) r c := by
        rw [hunf, if_neg h]
      constructor
      · rw [hstep]
        constructor
        · intro hT
          exact absurd hT h
        · intro hall
          exact absurd (hall (L + 1) (Nat.le_refl _)) h
      · intro hall
        exact absurd (hall (L + 1) (Nat.le_refl _)) h

/-- C4: for in-range layer, row and column, `lookup` returns the
transparent code exactly when every layer at or below the starting layer
is transparent at that cell, and in that case it returns the (transparent)
layer-0 value. -/
theorem lookup_transparent_fallthrough (L r c : Nat)
    (_hL : L < NUM_LAYERS) (_hr : r < ROWS) (_hc : c < COLS) :
    (is_transparent (lookup L r c) = true ↔
      ∀ l, l ≤ L → is_transparent (keyAt l r c) = true)
    ∧ ((∀ l, l ≤ L → is_transparent (keyAt l r c) = true) →
        lookup L r c = keyAt 0 r c) :=
  lookup_trans_characterize r c L

/-- Witness for C4 at layer 1, cell (3, 0) — a cell transparent on layer 1
but not on layer 0, so the fall-through returns the layer-0 value. -/
theorem lookup_transparent_fallthrough_witness :
    (is_transparent (lookup 1 3 0) = true ↔
      ∀ l, l ≤ 1 → is_transparent (keyAt l 3 0) = true)
    ∧ ((∀ l, l ≤ 1 → is_transparent (keyAt l 3 0) = true) →
        lookup 1 3 0 = keyAt 0 3 0) :=
  lookup_transparent_fallthrough 1 3 0 (by decide) (by decide) (by decide)

/-! ### Theorems about the Intel HEX parser -/

/-- C1 (code bug): the record `":0500000000"` decodes to the five bytes
`[0x05, 0, 0, 0, 0]`, so its total length 5 differs from
`5 + count = 10` — yet `parse_hex` panics on it instead of returning a
line-qualified failure, because the source takes the slice
`&bytes[4..4 + byte_count]` before checking `bytes.len() == 5 + byte_count`. -/
theorem parse_hex_short_record_panics :
    decode_hex_bytes ((trimChars ":0500000000".data).drop 1) = some [0x05, 0, 0, 0, 0]
    ∧ parse_hex [":0500000000"] = ParseResult.panicked := by
  constructor
  · decide
  · decide

/-! ### Theorems about the HalfKay page buffer -/

/-- C6: for data of length at most 128, `build_page_buffer` returns exactly
`2 + 128 = 130` bytes: the address's low byte, its high byte, the data at
offsets `2..2+n`, and `0xFF` from `2+n` up to `130`. -/
theorem build_page_buffer_layout (address : Nat) (data : List Nat)
    (h : data.length ≤ PAGE_SIZE) :
    build_page_buffer address data
      = some ([address % 256, address / 256 % 256] ++ data
          ++ List.replicate (PAGE_SIZE - data.length) 0xFF)
    ∧ ((build_page_buffer address data).getD []).length = 2 + PAGE_SIZE
    ∧ ((build_page_buffer address data).getD []).getD 0 0 = address % 256
    ∧ ((build_page_buffer address data).getD []).getD 1 0 = address / 256 % 256
    ∧ (∀ i, i < data.length →
        ((build_page_buffer address data).getD []).getD (2 + i) 0 = data.getD i 0)
    ∧ (∀ j, 2 + data.length ≤ j → j < 2 + PAGE_SIZE →
        ((build_page_buffer address data).getD []).getD j 0 = 0xFF) := by
  have hbuf : build_page_buffer address data
      = some ([address % 256, address / 256 % 256] ++ data
          ++ List.replicate (PAGE_SIZE - data.length) 0xFF) := by
    unfold build_page_buffer copyFromSlice
    rw [if_pos h]
    have e1 : (List.replicate (2 + PAGE_SIZE) 0xFF : List Nat)
        = 0xFF :: 0xFF :: List.replicate PAGE_SIZE 0xFF := rfl
    rw [e1]
    simp only [List.set]
    congr 1
    have e2 : 2 + data.length = data.length + 2 := by omega
    simp only [List.take, List.append_assoc, e2, List.drop_succ_cons]
    congr 2
    have e3 : ∀ m k : Nat, (List.replicate m (0xFF : Nat)).drop k
        = List.replicate (m - k) 0xFF := by
      intro m
      induction m with
      | zero => intro k; simp
      | succ m ih =>
        intro k
        cases k with
        | zero => simp
        | succ k =>
          rw [List.replicate_succ, List.drop_succ_cons, ih k]
          congr 1
          omega
    exact e3 PAGE_SIZE data.length
  refine ⟨hbuf, ?_, ?_, ?_, ?_, ?_⟩ <;> rw [hbuf]
  · simp only [Option.getD_some, List.length_append, List.length_replicate,
      List.length_cons, List.length_nil]
    omega
  · rfl
  · rfl
  · intro i hi
    simp only [Option.getD_some]
    rw [show ([address % 256, address / 256 % 256] ++ data
        ++ List.replicate (PAGE_SIZE - data.length) 0xFF)
      = [address % 256, address / 256 % 256]
        ++ (data ++ List.replicate (PAGE_SIZE - data.length) 0xFF) by simp]
    rw [List.getD_append_right _ _ _ _ (by simp)]
    simp only [List.length_cons, List.length_nil]
    rw [show 2 + i - (0 + 1 + 1) = i by omega]
    exact List.getD_append _ _ _ _ hi
  · intro j h2 h3
    simp only [Option.getD_some]
    rw [show ([address % 256, address / 256 % 256] ++ data
        ++ List.replicate (PAGE_SIZE - data.length) 0xFF)
      = ([address % 256, address / 256 % 256] ++ data)
        ++ List.replicate (PAGE_SIZE - data.length) 0xFF by simp]
    rw [List.getD_append_right _ _ _ _ (by simp; omega)]
    apply getD_replicate
    simp only [List.length_append, List.length_cons, List.length_nil]
    omega

/-- Witness for C6 at the spec's concrete scenario
`build_page_buffer(0x1A00, [0xDE, 0xAD])`. -/
theorem build_page_buffer_layout_witness :
    build_page_buffer 0x1A00 [0xDE, 0xAD]
      = some ([0x1A00 % 256, 0x1A00 / 256 % 256] ++ [0xDE, 0xAD]
          ++ List.replicate (PAGE_SIZE - [0xDE, 0xAD].length) 0xFF)
    ∧ ((build_page_buffer 0x1A00 [0xDE, 0xAD]).getD []).length = 2 + PAGE_SIZE
    ∧ ((build_page_buffer 0x1A00 [0xDE, 0xAD]).getD []).getD 0 0 = 0x1A00 % 256
    ∧ ((build_page_buffer 0x1A00 [0xDE, 0xAD]).getD []).getD 1 0 = 0x1A00 / 256 % 256
    ∧ (∀ i, i < [0xDE, 0xAD].length →
        ((build_page_buffer 0x1A00 [0xDE, 0xAD]).getD []).getD (2 + i) 0
          = [0xDE, 0xAD].getD i 0)
    ∧ (∀ j, 2 + [0xDE, 0xAD].length ≤ j → j < 2 + PAGE_SIZE →
        ((build_page_buffer 0x1A00 [0xDE, 0xAD]).getD []).getD j 0 = 0xFF) :=
  build_page_buffer_layout 0x1A00 [0xDE, 0xAD] (by decide)

/-! ### Theorems about the HID report builder -/

theorem report_foldl (keys : Nat → Nat → Bool) (layer : Nat) :
    ∀ (L : List (Nat × Nat)) (m : Nat) (pref : List Nat), pref.length ≤ 6 →
      L.foldl (reportStep keys layer)
          (⟨m, 0, pref ++ List.replicate (6 - pref.length) 0⟩, pref.length)
        = (⟨(modifierCodes keys layer L).foldl (fun a kc => a ||| modifier_bit kc) m,
            0,
            (pref ++ regularCodes keys layer L).take 6
              ++ List.replicate
                  (6 - min 6 (pref.length + (regularCodes keys layer L).length)) 0⟩,
           min 6 (pref.length + (regularCodes keys layer L).length)) := by
  intro L
  induction L with
  | nil =>
    intro m pref hp
    simp only [List.foldl_nil, modifierCodes, regularCodes, activeCodes,
      List.filterMap_nil, List.filter_nil, List.length_nil, List.append_nil,
      Nat.add_zero]
    rw [Nat.min_eq_right hp, List.take_of_length_le hp]
  | cons a t ih =>
    intro m pref hp
    rw [List.foldl_cons]
    by_cases hk : keys a.1 a.2 = true
    · by_cases hskip : (is_transparent (lookup layer a.1 a.2) = true
          ∨ is_layer (lookup layer a.1 a.2) = true)
          ∨ lookup layer a.1 a.2 = 0x01
      · have hstep : reportStep keys layer
            (⟨m, 0, pref ++ List.replicate (6 - pref.length) 0⟩, pref.length) a
            = (⟨m, 0, pref ++ List.replicate (6 - pref.length) 0⟩, pref.length) := by
          simp [reportStep, hk, hskip]
        have hact : activeCodes keys layer (a :: t) = activeCodes keys layer t := by
          simp [activeCodes, List.filterMap_cons, hk, hskip]
        rw [hstep, ih m pref hp]
        simp only [modifierCodes, regularCodes, hact]
      · have hact : activeCodes keys layer (a :: t)
            = lookup layer a.1 a.2 :: activeCodes keys layer t := by
          simp [activeCodes, List.filterMap_cons, hk, hskip]
        by_cases hmod : is_modifier (lookup layer a.1 a.2) = true
        · have hstep : reportStep keys layer
              (⟨m, 0, pref ++ List.replicate (6 - pref.length) 0⟩, pref.length) a
              = (⟨m ||| modifier_bit (lookup layer a.1 a.2), 0,
                  pref ++ List.replicate (6 - pref.length) 0⟩, pref.length) := by
            simp [reportStep, hk, hskip, hmod]
          rw [hstep, ih (m ||| modifier_bit (lookup layer a.1 a.2)) pref hp]
          simp [modifierCodes, regularCodes, hact, List.filter_cons, hmod]
        · by_cases hlt6 : pref.length < 6
          · have harr : (pref ++ List.replicate (6 - pref.length) 0).set pref.length
                (lookup layer a.1 a.2)
                = (pref ++ [lookup layer a.1 a.2])
                    ++ List.replicate (6 - (pref.length + 1)) 0 := by
              rw [List.set_append_right pref.length _ (Nat.le_refl _), Nat.sub_self]
              rw [show 6 - pref.length = (6 - (pref.length + 1)) + 1 by omega,
                List.replicate_succ]
              simp
            have hstep : reportStep keys layer
                (⟨m, 0, pref ++ List.replicate (6 - pref.length) 0⟩, pref.length) a
                = (⟨m, 0, (pref ++ [lookup layer a.1 a.2])
                      ++ List.replicate (6 - (pref.length + 1)) 0⟩, pref.length + 1) := by
              simp only [reportStep, hk, hskip, hmod, if_true, if_false,
                Bool.false_eq_true, hlt6, ite_true, ite_false]
              rw [← harr]
              simp [hk, hskip, hmod, hlt6]
            have hlen1 : (pref ++ [lookup layer a.1 a.2]).length = pref.length + 1 := by
              simp
            have hp1 : (pref ++ [lookup layer a.1 a.2]).length ≤ 6 := by
              rw [hlen1]; omega
            rw [hstep,
              show pref.length + 1 = (pref ++ [lookup layer a.1 a.2]).length from hlen1.symm,
              ih m (pref ++ [lookup layer a.1 a.2]) hp1]
            have hfm : modifierCodes keys layer (a :: t) = modifierCodes keys layer t := by
              simp [modifierCodes, hact, hmod]
            have hfr : regularCodes keys layer (a :: t)
                = lookup layer a.1 a.2 :: regularCodes keys layer t := by
              simp [regularCodes, hact, hmod]
            rw [hfm, hfr]
            have hl2 : (pref ++ [lookup layer a.1 a.2]) ++ regularCodes keys layer t
                = pref ++ lookup layer a.1 a.2 :: regularCodes keys layer t := by
              simp
            rw [hl2, hlen1, List.length_cons]
            rw [show pref.length + 1 + (regularCodes keys layer t).length
                = pref.length + ((regularCodes keys layer t).length + 1) by omega]
          · have h6 : pref.length = 6 := by omega
            have hstep : reportStep keys layer
                (⟨m, 0, pref ++ List.replicate (6 - pref.length) 0⟩, pref.length) a
                = (⟨m, 0, pref ++ List.replicate (6 - pref.length) 0⟩, pref.length) := by
              simp [reportStep, hk, hskip, hmod, hlt6]
            rw [hstep, ih m pref hp]
            have hfm : modifierCodes keys layer (a :: t) = modifierCodes keys layer t := by
              simp [modifierCodes, hact, hmod]
            have hfr : regularCodes keys layer (a :: t)
                = lookup layer a.1 a.2 :: regularCodes keys layer t := by
              simp [regularCodes, hact, hmod]
            rw [hfm, hfr, List.length_cons]
            have htk : ∀ l : List Nat, List.take 6 (pref ++ l) = pref := by
              intro l
              rw [← h6, List.take_left]
            rw [htk, htk]
            rw [show 6 ⊓ (pref.length + (regularCodes keys layer t).length) = 6 by omega,
              show 6 ⊓ (pref.length + ((regularCodes keys layer t).length + 1)) = 6 by omega]
    · have hstep : reportStep keys layer
          (⟨m, 0, pref ++ List.replicate (6 - pref.length) 0⟩, pref.length) a
          = (⟨m, 0, pref ++ List.replicate (6 - pref.length) 0⟩, pref.length) := by
        simp [reportStep, hk]
      have hact : activeCodes keys layer (a :: t) = activeCodes keys layer t := by
        simp [activeCodes, List.filterMap_cons, hk]
      rw [hstep, ih m pref hp]
      simp only [modifierCodes, regularCodes, hact]


theorem activeCodes_not_skipped (keys : Nat → Nat → Bool) (layer : Nat)
    (L : List (Nat × Nat)) :
    ∀ kc ∈ activeCodes keys layer L,
      is_transparent kc = false ∧ is_layer kc = false ∧ kc ≠ 0x01 := by
  intro kc h
  rw [activeCodes, List.mem_filterMap] at h
  obtain ⟨rc, _, hf⟩ := h
  by_cases hk : keys rc.1 rc.2 = true
  · rw [if_pos hk] at hf
    dsimp only at hf
    by_cases hskip : (is_transparent (lookup layer rc.1 rc.2) = true
        ∨ is_layer (lookup layer rc.1 rc.2) = true)
        ∨ lookup layer rc.1 rc.2 = 0x01
    · rw [if_pos (by simpa using hskip)] at hf
      exact absurd hf (by simp)
    · rw [if_neg (by simpa using hskip)] at hf
      obtain rfl : lookup layer rc.1 rc.2 = kc := by
        simpa using hf
      push_neg at hskip
      refine ⟨?_, ?_, hskip.2⟩
      · simpa using hskip.1.1
      · simpa using hskip.1.2
  · rw [if_neg hk] at hf
    exact absurd hf (by simp)

theorem regularCodes_props (keys : Nat → Nat → Bool) (layer : Nat)
    (L : List (Nat × Nat)) :
    ∀ kc ∈ regularCodes keys layer L,
      is_modifier kc = false ∧ is_layer kc = false
      ∧ is_transparent kc = false ∧ kc ≠ 0x01 := by
  intro kc h
  rw [regularCodes, List.mem_filter] at h
  obtain ⟨hmem, hmod⟩ := h
  have hs := activeCodes_not_skipped keys layer L kc hmem
  exact ⟨by simpa using hmod, hs.2.1, hs.1, hs.2.2⟩

theorem slot_zero_or_mem (l : List Nat) (pad i : Nat) :
    (l.take 6 ++ List.replicate pad 0).getD i 0 = 0
    ∨ (l.take 6 ++ List.replicate pad 0).getD i 0 ∈ l := by
  by_cases h : i < (l.take 6).length
  · right
    rw [List.getD_append _ _ _ _ h, List.getD_eq_getElem _ _ h]
    exact List.take_subset 6 l (List.getElem_mem h)
  · left
    rw [List.getD_append_right _ _ _ _ (Nat.le_of_not_lt h)]
    by_cases hp : i - (l.take 6).length < pad
    · exact getD_replicate hp
    · exact getD_replicate_ge (Nat.le_of_not_lt hp)

/-- C3: `build_report` ORs each pressed modifier only into the modifier
byte; the six keycode slots are exactly the first six resolved
non-modifier codes in row-major order (later ones silently dropped),
padded with 0; every code placed in a slot is neither a modifier, nor a
layer hold, nor transparent, nor the error-rollover code; and every slot
byte is never a modifier, layer or error-rollover value. -/
theorem build_report_slots (keys : Nat → Nat → Bool) (layer : Nat)
    (_hlayer : layer < NUM_LAYERS) :
    (build_report keys layer).modifiers
      = (modifierCodes keys layer cellIndices).foldl
          (fun a kc => a ||| modifier_bit kc) 0
    ∧ (build_report keys layer).keys
      = (regularCodes keys layer cellIndices).take 6
          ++ List.replicate
              (6 - min 6 (regularCodes keys layer cellIndices).length) 0
    ∧ (∀ kc ∈ modifierCodes keys layer cellIndices, is_modifier kc = true)
    ∧ (∀ kc ∈ regularCodes keys layer cellIndices,
        is_modifier kc = false ∧ is_layer kc = false
        ∧ is_transparent kc = false ∧ kc ≠ 0x01)
    ∧ (∀ i, i < 6 →
        is_modifier ((build_report keys layer).keys.getD i 0) = false
        ∧ is_layer ((build_report keys layer).keys.getD i 0) = false
        ∧ (build_report keys layer).keys.getD i 0 ≠ 0x01) := by
  have hfold := report_foldl keys layer cellIndices 0 [] (by simp)
  have hrep : build_report keys layer
      = ⟨(modifierCodes keys layer cellIndices).foldl
            (fun a kc => a ||| modifier_bit kc) 0,
         0,
         (regularCodes keys layer cellIndices).take 6
           ++ List.replicate
               (6 - min 6 (regularCodes keys layer cellIndices).length) 0⟩ := by
    rw [build_report]
    rw [show (KeyboardReport.empty, (0:Nat))
        = (⟨0, 0, ([] : List Nat) ++ List.replicate (6 - ([] : List Nat).length) 0⟩,
           ([] : List Nat).length) from rfl]
    rw [hfold]
    simp
  refine ⟨by rw [hrep], by rw [hrep], ?_, regularCodes_props keys layer cellIndices, ?_⟩
  · intro kc h
    rw [modifierCodes, List.mem_filter] at h
    exact h.2
  · intro i _
    have hzm := slot_zero_or_mem (regularCodes keys layer cellIndices)
      (6 - min 6 (regularCodes keys layer cellIndices).length) i
    rw [hrep]
    dsimp only
    rcases hzm with hz | hmem
    · rw [hz]
      exact ⟨rfl, rfl, by decide⟩
    · have := regularCodes_props keys layer cellIndices _ hmem
      exact ⟨this.1, this.2.1, this.2.2.2⟩

/-- Witness for C3 at the all-pressed snapshot on layer 0 (more than six
non-modifier keys resolve, so the drop path is exercised). -/
theorem build_report_slots_witness :
    (build_report (fun _ _ => true) 0).modifiers
      = (modifierCodes (fun _ _ => true) 0 cellIndices).foldl
          (fun a kc => a ||| modifier_bit kc) 0
    ∧ (build_report (fun _ _ => true) 0).keys
      = (regularCodes (fun _ _ => true) 0 cellIndices).take 6
          ++ List.replicate
              (6 - min 6 (regularCodes (fun _ _ => true) 0 cellIndices).length) 0
    ∧ (∀ kc ∈ modifierCodes (fun _ _ => true) 0 cellIndices, is_modifier kc = true)
    ∧ (∀ kc ∈ regularCodes (fun _ _ => true) 0 cellIndices,
        is_modifier kc = false ∧ is_layer kc = false
        ∧ is_transparent kc = false ∧ kc ≠ 0x01)
    ∧ (∀ i, i < 6 →
        is_modifier ((build_report (fun _ _ => true) 0).keys.getD i 0) = false
        ∧ is_layer ((build_report (fun _ _ => true) 0).keys.getD i 0) = false
        ∧ (build_report (fun _ _ => true) 0).keys.getD i 0 ≠ 0x01) :=
  build_report_slots (fun _ _ => true) 0 (by decide)


theorem foldl_wrap_add (bs : List Nat) :
    ∀ a : Nat, a < 256 →
      bs.foldl (fun acc b => (acc + b) % 256) a = (a + bs.sum) % 256 := by
  induction bs with
  | nil =>
    intro a ha
    simp [Nat.mod_eq_of_lt ha]
  | cons b t ih =>
    intro a ha
    rw [List.foldl_cons, ih _ (Nat.mod_lt _ (by omega)), List.sum_cons,
      Nat.mod_add_mod, Nat.add_assoc]

/-- Processing a well-framed record line whose byte sum does not wrap to
zero fails, citing that line's number; and (see `foldl_wrap_add`) the
wrapping checksum accumulator is zero exactly when the sum wraps to 0. -/
theorem parseLine_checksum_fail (ln : Nat) (line : String) (base_address : Nat)
    (segs : List HexSegment) (bytes : List Nat)
    (hcolon : (trimChars line.data).head? = some ':')
    (hdec : decode_hex_bytes ((trimChars line.data).drop 1) = some bytes)
    (hframe : bytes.length = 5 + bytes.getD 0 0)
    (hsum : bytes.sum % 256 ≠ 0) :
    parseLine ln line base_address segs = LineStep.fail ln := by
  unfold parseLine
  have hne : (trimChars line.data).isEmpty = false := by
    cases ht : trimChars line.data with
    | nil => rw [ht] at hcolon; simp at hcolon
    | cons a t => simp
  rw [if_neg (by simp [hne])]
  rw [if_neg (by rw [hcolon]; simp)]
  rw [hdec]
  dsimp only
  rw [if_neg (by omega)]
  rw [if_neg (by omega)]
  rw [if_neg (by omega)]
  rw [if_pos (by rw [foldl_wrap_add _ _ (by omega), Nat.zero_add]; exact hsum)]

theorem parseLines_append (l : String) (rest : List String) :
    ∀ (pre : List String) (ln0 base0 : Nat) (segs0 : List HexSegment)
      (ln base_address : Nat) (segs : List HexSegment),
      consumePrefix ln0 base0 segs0 pre = some (ln, base_address, segs) →
      parseLines ln0 base0 segs0 (pre ++ l :: rest)
        = (match parseLine ln l base_address segs with
           | .next b s => parseLines (ln + 1) b s rest
           | .eof => ParseResult.ok segs
           | .fail n => ParseResult.fail n
           | .panicked => ParseResult.panicked) := by
  intro pre
  induction pre with
  | nil =>
    intro ln0 base0 segs0 ln base_address segs h
    obtain ⟨rfl, rfl, rfl⟩ : ln0 = ln ∧ base0 = base_address ∧ segs0 = segs := by
      simpa [consumePrefix] using h
    rfl
  | cons p t ih =>
    intro ln0 base0 segs0 ln base_address segs h
    rw [List.cons_append]
    unfold consumePrefix at h
    cases hp : parseLine ln0 p base0 segs0 with
    | next b s =>
      rw [hp] at h
      have hred : parseLines ln0 base0 segs0 (p :: (t ++ l :: rest))
          = parseLines (ln0 + 1) b s (t ++ l :: rest) := by
        show (match parseLine ln0 p base0 segs0 with
           | LineStep.next b s => parseLines (ln0 + 1) b s (t ++ l :: rest)
           | LineStep.eof => ParseResult.ok segs0
           | LineStep.fail n => ParseResult.fail n
           | LineStep.panicked => ParseResult.panicked) = _
        rw [hp]
      rw [hred]
      exact ih (ln0 + 1) b s ln base_address segs h
    | eof => rw [hp] at h; exact absurd h (by simp)
    | fail n => rw [hp] at h; exact absurd h (by simp)
    | panicked => rw [hp] at h; exact absurd h (by simp)

theorem consumePrefix_line_number :
    ∀ (pre : List String) (ln0 base0 : Nat) (segs0 : List HexSegment)
      (ln base_address : Nat) (segs : List HexSegment),
      consumePrefix ln0 base0 segs0 pre = some (ln, base_address, segs) →
      ln = ln0 + pre.length := by
  intro pre
  induction pre with
  | nil =>
    intro ln0 base0 segs0 ln base_address segs h
    obtain ⟨rfl, -, -⟩ : ln0 = ln ∧ base0 = base_address ∧ segs0 = segs := by
      simpa [consumePrefix] using h
    simp
  | cons p t ih =>
    intro ln0 base0 segs0 ln base_address segs h
    unfold consumePrefix at h
    cases hp : parseLine ln0 p base0 segs0 with
    | next b s =>
      rw [hp] at h
      have := ih (ln0 + 1) b s ln base_address segs h
      rw [this, List.length_cons]
      omega
    | eof => rw [hp] at h; exact absurd h (by simp)
    | fail n => rw [hp] at h; exact absurd h (by simp)
    | panicked => rw [hp] at h; exact absurd h (by simp)

/-- C8: when parsing reaches a well-framed record line (prefix lines all
continue) whose unsigned byte sum does not wrap to zero, `parse_hex` fails
citing that line's 1-based number; and the source's wrapping-`u8`
checksum accumulator is zero exactly when the byte sum wraps to zero. -/
theorem parse_hex_checksum (pre : List String) (line : String) (rest : List String)
    (ln base_address : Nat) (segs : List HexSegment) (bytes : List Nat)
    (hpre : consumePrefix 1 0 [] pre = some (ln, base_address, segs))
    (hcolon : (trimChars line.data).head? = some ':')
    (hdec : decode_hex_bytes ((trimChars line.data).drop 1) = some bytes)
    (hframe : bytes.length = 5 + bytes.getD 0 0)
    (hsum : bytes.sum % 256 ≠ 0) :
    parse_hex (pre ++ line :: rest) = ParseResult.fail ln
    ∧ ln = pre.length + 1
    ∧ ∀ bs : List Nat,
        (bs.foldl (fun acc b => (acc + b) % 256) 0 = 0 ↔ bs.sum % 256 = 0) := by
  refine ⟨?_, ?_, ?_⟩
  · rw [parse_hex, parseLines_append line rest pre 1 0 [] ln base_address segs hpre,
      parseLine_checksum_fail ln line base_address segs bytes hcolon hdec hframe hsum]
  · rw [consumePrefix_line_number pre 1 0 [] ln base_address segs hpre]
    omega
  · intro bs
    rw [foldl_wrap_add _ _ (by omega), Nat.zero_add]

/-- Witness for C8: the spec's bad-checksum record (checksum byte `0x00`
instead of `0x78`) as the sole input line. -/
theorem parse_hex_checksum_witness :
    parse_hex ([] ++ ":10000000000102030405060708090A0B0C0D0E0F00" :: [])
      = ParseResult.fail 1
    ∧ (1:Nat) = ([] : List String).length + 1
    ∧ ∀ bs : List Nat,
        (bs.foldl (fun acc b => (acc + b) % 256) 0 = 0 ↔ bs.sum % 256 = 0) :=
  parse_hex_checksum [] ":10000000000102030405060708090A0B0C0D0E0F00" [] 1 0 []
    [0x10, 0, 0, 0, 0, 1, 2, 3, 4, 5, 6, 7, 8, 9, 10, 11, 12, 13, 14, 15, 0]
    rfl (by decide) (by decide) (by decide) (by decide)


/-! ### Theorems about `flatten_segments` -/

theorem getD_drop (l : List Nat) :
    ∀ n m : Nat, (l.drop n).getD m 0 = l.getD (n + m) 0 := by
  induction l with
  | nil => intro n m; simp
  | cons a t ih =>
    intro n m
    cases n with
    | zero => simp
    | succ n =>
      rw [List.drop_succ_cons, ih n m,
        show n + 1 + m = (n + m) + 1 by omega, List.getD_cons_succ]

theorem copyFromSlice_length (buf : List Nat) (off : Nat) (data : List Nat)
    (h : off + data.length ≤ buf.length) :
    (copyFromSlice buf off data).length = buf.length := by
  simp only [copyFromSlice, List.length_append, List.length_take, List.length_drop]
  omega

theorem copyFromSlice_getD_inside (buf : List Nat) (off : Nat) (data : List Nat)
    (h : off + data.length ≤ buf.length) (i : Nat) (hi : i < data.length) :
    (copyFromSlice buf off data).getD (off + i) 0 = data.getD i 0 := by
  unfold copyFromSlice
  have hto : (buf.take off).length = off := by
    rw [List.length_take]
    omega
  rw [List.append_assoc, List.getD_append_right _ _ _ _ (by rw [hto]; omega), hto,
    Nat.add_sub_cancel_left, List.getD_append _ _ _ _ hi]

theorem copyFromSlice_getD_outside (buf : List Nat) (off : Nat) (data : List Nat)
    (h : off + data.length ≤ buf.length) (j : Nat)
    (hj : j < off ∨ off + data.length ≤ j) :
    (copyFromSlice buf off data).getD j 0 = buf.getD j 0 := by
  unfold copyFromSlice
  have hto : (buf.take off).length = off := by
    rw [List.length_take]
    omega
  rw [List.append_assoc]
  rcases hj with hj | hj
  · rw [List.getD_append _ _ _ _ (by rw [hto]; omega)]
    rw [List.getD_eq_getElem?_getD, List.getD_eq_getElem?_getD,
      List.getElem?_take_of_lt hj]
  · rw [List.getD_append_right _ _ _ _ (by rw [hto]; omega), hto,
      List.getD_append_right _ _ _ _ (by omega), getD_drop]
    congr 1
    omega

theorem flatten_fold_length (minA : Nat) :
    ∀ (segs : List HexSegment) (img : List Nat),
      (∀ s ∈ segs, s.address - minA + s.data.length ≤ img.length) →
      (segs.foldl (fun img s => copyFromSlice img (s.address - minA) s.data) img).length
        = img.length := by
  intro segs
  induction segs with
  | nil => intro img _; rfl
  | cons a t ih =>
    intro img hin
    rw [List.foldl_cons]
    have ha := hin a (List.mem_cons_self a t)
    have hlen := copyFromSlice_length img (a.address - minA) a.data ha
    rw [ih _ (fun s hs => by rw [hlen]; exact hin s (List.mem_cons_of_mem a hs)), hlen]

theorem flatten_fold_outside (minA : Nat) :
    ∀ (segs : List HexSegment) (img : List Nat) (j : Nat),
      (∀ s ∈ segs, s.address - minA + s.data.length ≤ img.length) →
      (∀ s ∈ segs, ¬(s.address - minA ≤ j ∧ j < s.address - minA + s.data.length)) →
      (segs.foldl (fun img s => copyFromSlice img (s.address - minA) s.data) img).getD j 0
        = img.getD j 0 := by
  intro segs
  induction segs with
  | nil => intro img j _ _; rfl
  | cons a t ih =>
    intro img j hin hout
    rw [List.foldl_cons]
    have ha := hin a (List.mem_cons_self a t)
    have hlen := copyFromSlice_length img (a.address - minA) a.data ha
    have hcov := hout a (List.mem_cons_self a t)
    rw [ih _ j (fun s hs => by rw [hlen]; exact hin s (List.mem_cons_of_mem a hs))
        (fun s hs => hout s (List.mem_cons_of_mem a hs))]
    exact copyFromSlice_getD_outside img _ a.data ha j (by omega)

theorem flatten_fold_inside (minA : Nat) :
    ∀ (segs : List HexSegment) (img : List Nat) (s : HexSegment) (i : Nat),
      segs.Pairwise (fun a b =>
        a.address + a.data.length ≤ b.address
        ∨ b.address + b.data.length ≤ a.address) →
      s ∈ segs → i < s.data.length →
      (∀ q ∈ segs, minA ≤ q.address ∧ q.address - minA + q.data.length ≤ img.length) →
      (segs.foldl (fun img q => copyFromSlice img (q.address - minA) q.data) img).getD
          (s.address - minA + i) 0
        = s.data.getD i 0 := by
  intro segs
  induction segs with
  | nil =>
    intro img s i _ hmem
    exact absurd hmem (by simp)
  | cons a t ih =>
    intro img s i hpw hmem hi hin
    rw [List.pairwise_cons] at hpw
    have ha := (hin a (List.mem_cons_self a t)).2
    have haminA := (hin a (List.mem_cons_self a t)).1
    have hlen := copyFromSlice_length img (a.address - minA) a.data ha
    rw [List.foldl_cons]
    rcases List.mem_cons.mp hmem with rfl | hmemt
    · have huntouched : ∀ q ∈ t,
          ¬(q.address - minA ≤ s.address - minA + i
            ∧ s.address - minA + i < q.address - minA + q.data.length) := by
        intro q hq
        have hd := hpw.1 q hq
        have hqmin := (hin q (List.mem_cons_of_mem s hq)).1
        omega
      rw [flatten_fold_outside minA t _ _
          (fun q hq => by rw [hlen]; exact (hin q (List.mem_cons_of_mem s hq)).2)
          huntouched]
      exact copyFromSlice_getD_inside img _ _ ha i hi
    · exact ih _ s i hpw.2 hmemt hi
        (fun q hq => ⟨(hin q (List.mem_cons_of_mem a hq)).1,
          by rw [hlen]; exact (hin q (List.mem_cons_of_mem a hq)).2⟩)


/-- C7 counterexample: with two overlapping segments at the same address,
the first segment's data does not appear in the flattened image (the
later copy overwrites it), so the claim's \"each segment's data appears at
its offset\" fails for arbitrary segment lists. -/
theorem flatten_overlap_counterexample :
    flatten_segments [⟨0, [0xAA]⟩, ⟨0, [0xBB]⟩] = some (0, [0xBB])
    ∧ ¬(∀ s ∈ ([⟨0, [0xAA]⟩, ⟨0, [0xBB]⟩] : List HexSegment),
        ∀ i, i < s.data.length →
          ([0xBB] : List Nat).getD (s.address - 0 + i) 0 = s.data.getD i 0) := by
  constructor
  · decide
  · decide

/-- C7 (amended with pairwise-disjoint segments, as the counterexample
forces, and with the `u32` no-overflow side condition under which the
`Nat` model coincides with the source's `u32` arithmetic): for a
non-empty list of pairwise non-overlapping segments, `flatten_segments`
returns the minimum segment address together with an image spanning up to
the maximum segment end, holding each segment's data at its offset from
the base and `0xFF` at every byte no segment covers; for the empty list
it fails. -/
theorem flatten_segments_disjoint_spec (segs : List HexSegment)
    (minA : Nat) (img : List Nat)
    (hne : segs ≠ [])
    (hdisj : segs.Pairwise (fun a b =>
      a.address + a.data.length ≤ b.address
      ∨ b.address + b.data.length ≤ a.address))
    (_hu32 : ∀ s ∈ segs, s.address + s.data.length < 2 ^ 32)
    (hres : flatten_segments segs = some (minA, img)) :
    (∀ s ∈ segs, minA ≤ s.address)
    ∧ minA ∈ segs.map (fun s => s.address)
    ∧ img.length
        = (segs.map (fun s => s.address + s.data.length)).max?.getD 0 - minA
    ∧ (∀ s ∈ segs, ∀ i, i < s.data.length →
        img.getD (s.address - minA + i) 0 = s.data.getD i 0)
    ∧ (∀ j, j < img.length →
        (∀ s ∈ segs, ¬(s.address ≤ minA + j ∧ minA + j < s.address + s.data.length)) →
        img.getD j 0 = 0xFF)
    ∧ flatten_segments [] = none := by
  unfold flatten_segments at hres
  rw [if_neg (by simpa [List.isEmpty_iff] using hne)] at hres
  cases hmin : (segs.map (fun s => s.address)).min? with
  | none =>
    rw [List.min?_eq_none_iff] at hmin
    rw [List.map_eq_nil_iff] at hmin
    exact absurd hmin hne
  | some m0 =>
    cases hmax : (segs.map (fun s => s.address + s.data.length)).max? with
    | none =>
      rw [List.max?_eq_none_iff] at hmax
      rw [List.map_eq_nil_iff] at hmax
      exact absurd hmax hne
    | some M =>
      rw [hmin, hmax] at hres
      dsimp only at hres
      have h2 := Option.some.inj hres
      have hm0 : m0 = minA := congrArg Prod.fst h2
      have himg : segs.foldl (fun image s => copyFromSlice image (s.address - m0) s.data)
          (List.replicate (M - m0) 0xFF) = img := congrArg Prod.snd h2
      rw [hm0] at hmin himg
      have hminP : minA ∈ segs.map (fun s => s.address)
          ∧ ∀ b ∈ segs.map (fun s => s.address), minA ≤ b :=
        (List.min?_eq_some_iff (fun a => Nat.le_refl a) (fun a b => by omega)
          (fun a b c => by omega)).mp hmin
      have hmaxP : M ∈ segs.map (fun s => s.address + s.data.length)
          ∧ ∀ b ∈ segs.map (fun s => s.address + s.data.length), b ≤ M :=
        (List.max?_eq_some_iff (fun a => Nat.le_refl a) (fun a b => by omega)
          (fun a b c => by omega)).mp hmax
      have hlow : ∀ s ∈ segs, minA ≤ s.address := by
        intro s hs
        exact hminP.2 _ (List.mem_map_of_mem _ hs)
      have hhigh : ∀ s ∈ segs, s.address + s.data.length ≤ M := by
        intro s hs
        exact hmaxP.2 _ (List.mem_map_of_mem _ hs)
      have hinb : ∀ q ∈ segs, minA ≤ q.address
          ∧ q.address - minA + q.data.length ≤ (List.replicate (M - minA) 0xFF).length := by
        intro q hq
        refine ⟨hlow q hq, ?_⟩
        rw [List.length_replicate]
        have h1 := hlow q hq
        have h2 := hhigh q hq
        omega
      have hlen : img.length = M - minA := by
        rw [← himg, flatten_fold_length minA segs _ (fun s hs => (hinb s hs).2),
          List.length_replicate]
      refine ⟨hlow, hminP.1, ?_, ?_, ?_, rfl⟩
      · rw [hlen]
        rfl
      · intro s hs i hi
        rw [← himg]
        exact flatten_fold_inside minA segs _ s i hdisj hs hi hinb
      · intro j hj hout
        rw [← himg]
        rw [flatten_fold_outside minA segs _ j (fun s hs => (hinb s hs).2) ?_]
        · exact getD_replicate (hlen ▸ hj)
        · intro s hs
          have h1 := hlow s hs
          have hc := hout s hs
          omega

/-- Witness for C7 at the spec's concrete scenario
`flatten_segments([(0x100, \"AABB\"), (0x110, \"CCDD\")])`. -/
theorem flatten_segments_disjoint_spec_witness :
    (∀ s ∈ ([⟨0x100, [0xAA, 0xBB]⟩, ⟨0x110, [0xCC, 0xDD]⟩] : List HexSegment),
      0x100 ≤ s.address)
    ∧ 0x100 ∈ ([⟨0x100, [0xAA, 0xBB]⟩, ⟨0x110, [0xCC, 0xDD]⟩] : List HexSegment).map
        (fun s => s.address)
    ∧ ([0xAA, 0xBB, 0xFF, 0xFF, 0xFF, 0xFF, 0xFF, 0xFF, 0xFF, 0xFF, 0xFF, 0xFF,
        0xFF, 0xFF, 0xFF, 0xFF, 0xCC, 0xDD] : List Nat).length
        = (([⟨0x100, [0xAA, 0xBB]⟩, ⟨0x110, [0xCC, 0xDD]⟩] : List HexSegment).map
            (fun s => s.address + s.data.length)).max?.getD 0 - 0x100
    ∧ (∀ s ∈ ([⟨0x100, [0xAA, 0xBB]⟩, ⟨0x110, [0xCC, 0xDD]⟩] : List HexSegment),
        ∀ i, i < s.data.length →
          ([0xAA, 0xBB, 0xFF, 0xFF, 0xFF, 0xFF, 0xFF, 0xFF, 0xFF, 0xFF, 0xFF, 0xFF,
            0xFF, 0xFF, 0xFF, 0xFF, 0xCC, 0xDD] : List Nat).getD
              (s.address - 0x100 + i) 0 = s.data.getD i 0)
    ∧ (∀ j, j < ([0xAA, 0xBB, 0xFF, 0xFF, 0xFF, 0xFF, 0xFF, 0xFF, 0xFF, 0xFF, 0xFF,
          0xFF, 0xFF, 0xFF, 0xFF, 0xFF, 0xCC, 0xDD] : List Nat).length →
        (∀ s ∈ ([⟨0x100, [0xAA, 0xBB]⟩, ⟨0x110, [0xCC, 0xDD]⟩] : List HexSegment),
          ¬(s.address ≤ 0x100 + j ∧ 0x100 + j < s.address + s.data.length)) →
        ([0xAA, 0xBB, 0xFF, 0xFF, 0xFF, 0xFF, 0xFF, 0xFF, 0xFF, 0xFF, 0xFF, 0xFF,
          0xFF, 0xFF, 0xFF, 0xFF, 0xCC, 0xDD] : List Nat).getD j 0 = 0xFF)
    ∧ flatten_segments [] = none :=
  flatten_segments_disjoint_spec
    [⟨0x100, [0xAA, 0xBB]⟩, ⟨0x110, [0xCC, 0xDD]⟩] 0x100
    [0xAA, 0xBB, 0xFF, 0xFF, 0xFF, 0xFF, 0xFF, 0xFF, 0xFF, 0xFF, 0xFF, 0xFF,
     0xFF, 0xFF, 0xFF, 0xFF, 0xCC, 0xDD]
    (by decide) (by decide) (by decide) (by decide)

end Ergodox
